import Mathlib

/-!
Verification of the smuc_rs firmware-directory scanner.

A firmware image is a read-only byte buffer, modelled as a `List Nat` whose
elements stand for `u8` values; every read of a byte goes through a `% 256`
normalisation so that the model agrees with Rust `u8` semantics on all real
buffers.  Rust slice operations are modelled explicitly: the checked `get`
accessors return `Option` while the panicking index operators are modelled by
a dedicated `panicked` outcome, so that out-of-bounds panics are visible in
the model rather than being silently turned into errors.
-/

/-- A firmware image: a sequence of byte values (`u8` in the source). -/
abbrev Bytes := List Nat

/-- Read one byte (Rust `data[i]` on `&[u8]`, total via default 0; callers only
use it on validated ranges), normalised to `u8` range. -/
def readByte (d : Bytes) (i : Nat) : Nat := d.getD i 0 % 256

/-- Little-endian `u32` read at offset `i` (Rust `u32` field of a `Pod` struct). -/
def readU32LE (d : Bytes) (i : Nat) : Nat :=
  readByte d i + 256 * readByte d (i + 1) + 65536 * readByte d (i + 2) +
    16777216 * readByte d (i + 3)

/-- Little-endian `u64` read at offset `i` (Rust `u64` field of a `Pod` struct). -/
def readU64LE (d : Bytes) (i : Nat) : Nat :=
  readU32LE d i + 4294967296 * readU32LE d (i + 4)

/-- A byte-array field of a fixed-layout record: `n` bytes starting at offset `i`. -/
def bytesSeg (d : Bytes) (i n : Nat) : Bytes := ((d.drop i).take n).map (· % 256)

/-- Rust `data.get(i..)`: `Some` suffix when `i <= len`, `None` otherwise. -/
def sliceGetFrom (d : Bytes) (i : Nat) : Option Bytes :=
  if i ≤ d.length then some (d.drop i) else none

/-- Rust `data.get(..n)`: `Some` prefix when `n <= len`, `None` otherwise. -/
def sliceGetTo (d : Bytes) (n : Nat) : Option Bytes :=
  if n ≤ d.length then some (d.take n) else none

/-- Auxiliary for `chunksExact`, with fuel bounding the number of chunks. -/
def chunksExactAux : Nat → Nat → List α → List (List α)
  | 0, _, _ => []
  | fuel + 1, n, l =>
    if 0 < n ∧ n ≤ l.length then l.take n :: chunksExactAux fuel n (l.drop n) else []

/-- Rust `slice::chunks_exact(n)`: the maximal list of consecutive `n`-element
chunks, any shorter remainder discarded. -/
def chunksExact (n : Nat) (l : List α) : List (List α) := chunksExactAux l.length n l

/-- Rust `utils::resolve_location`: mask the raw location to its low 24 bits and
add the caller-supplied base offset. -/
def resolve_location (location : Nat) (offset : Nat) : Nat :=
  (location &&& 0x00FFFFFF) + offset

/-- `structs::Version`: four `u8` fields, declared in the source order
build, micro, minor, major. -/
structure Version where
  build : Nat
  micro : Nat
  minor : Nat
  major : Nat
deriving DecidableEq, Repr

/-- `Version::is_zero`. -/
def Version.is_zero (v : Version) : Bool :=
  v.build == 0 && v.micro == 0 && v.minor == 0 && v.major == 0

/-- `impl Ord for Version`: chained `Ordering::then` through
major, minor, micro, build. -/
def Version.cmp (a b : Version) : Ordering :=
  ((((Ordering.eq).then (compare a.major b.major)).then
      (compare a.minor b.minor)).then
      (compare a.micro b.micro)).then
      (compare a.build b.build)

/-- `structs::PspEntryHeader`: the 256-byte leaf firmware component record. -/
structure PspEntryHeader where
  rsvd_0 : Bytes
  signature : Bytes
  rsvd_14 : Bytes
  version : Version
  rsvd_64 : Bytes
  packed_size : Nat
  rsvd_70 : Bytes
deriving DecidableEq, Repr

/-- Reinterpret a 256-byte chunk as a `PspEntryHeader`
(the success case of `bytemuck::try_from_bytes`). -/
def PspEntryHeader.parse (d : Bytes) : PspEntryHeader where
  rsvd_0 := bytesSeg d 0 16
  signature := bytesSeg d 16 4
  rsvd_14 := bytesSeg d 20 76
  version :=
    { build := readByte d 0x60, micro := readByte d 0x61
      minor := readByte d 0x62, major := readByte d 0x63 }
  rsvd_64 := bytesSeg d 0x64 8
  packed_size := readU32LE d 0x6c
  rsvd_70 := bytesSeg d 0x70 144

/-- Typed failures: one constructor per distinct `anyhow` error message produced
by the scanner core. -/
inductive Failure where
  | couldNotFetchComboDirectory
  | couldNotParseComboDirectory
  | couldNotFetchPspDirectory
  | couldNotParsePspDirectory
  | couldNotFetchPspEntryHeader
  | couldNotParsePspEntryHeader
  | unknownSignature (sig : Bytes)
deriving DecidableEq, Repr

/-- `PspEntryHeader::new`: checked 256-byte fetch followed by reinterpretation. -/
def PspEntryHeader.new (data : Bytes) : Except Failure PspEntryHeader :=
  match sliceGetTo data 256 with
  | none => .error .couldNotFetchPspEntryHeader
  | some chunk => .ok (PspEntryHeader.parse chunk)

/-- `PspEntryHeader::get_version`: the packed version field, or the legacy
fallback built from the first four record bytes when the packed field is zero. -/
def PspEntryHeader.get_version (h : PspEntryHeader) : Version :=
  if h.version.is_zero then
    { build := h.rsvd_0.getD 0 0, micro := h.rsvd_0.getD 1 0
      minor := h.rsvd_0.getD 2 0, major := h.rsvd_0.getD 3 0 }
  else h.version

/-- `structs::DirectoryHeader` (16 bytes). -/
structure DirectoryHeader where
  signature : Bytes
  checksum : Bytes
  entries : Nat
  rsvd_0c : Bytes
deriving DecidableEq, Repr

/-- Reinterpret a 16-byte chunk as a `DirectoryHeader`. -/
def DirectoryHeader.parse (d : Bytes) : DirectoryHeader where
  signature := bytesSeg d 0 4
  checksum := bytesSeg d 4 4
  entries := readU32LE d 8
  rsvd_0c := bytesSeg d 12 4

/-- `structs::ComboDirectoryHeader` (32 bytes). -/
structure ComboDirectoryHeader where
  signature : Bytes
  checksum : Bytes
  entries : Nat
  look_up_mode : Nat
  rsvd_10 : Bytes
deriving DecidableEq, Repr

/-- Reinterpret a 32-byte chunk as a `ComboDirectoryHeader`. -/
def ComboDirectoryHeader.parse (d : Bytes) : ComboDirectoryHeader where
  signature := bytesSeg d 0 4
  checksum := bytesSeg d 4 4
  entries := readU32LE d 8
  look_up_mode := readU32LE d 12
  rsvd_10 := bytesSeg d 16 16

/-- `structs::PspDirectoryEntry` (16 bytes). -/
structure PspDirectoryEntry where
  kind : Nat
  sub_program : Nat
  rom_id : Nat
  rsvd_03 : Nat
  size : Nat
  location : Nat
deriving DecidableEq, Repr

/-- Reinterpret a 16-byte chunk as a `PspDirectoryEntry`. -/
def PspDirectoryEntry.parse (d : Bytes) : PspDirectoryEntry where
  kind := readByte d 0
  sub_program := readByte d 1
  rom_id := readByte d 2
  rsvd_03 := readByte d 3
  size := readU32LE d 4
  location := readU64LE d 8

/-- `structs::ComboDirectoryEntry` (16 bytes). -/
structure ComboDirectoryEntry where
  id_select : Nat
  id : Nat
  location : Nat
deriving DecidableEq, Repr

/-- Reinterpret a 16-byte chunk as a `ComboDirectoryEntry`. -/
def ComboDirectoryEntry.parse (d : Bytes) : ComboDirectoryEntry where
  id_select := readU32LE d 0
  id := readU32LE d 4
  location := readU64LE d 8

/-- Modelled from the spec: the type `Generation` is referenced by
`parsers.rs` but its definition is not under `src/`; per the spec it is an
optional tag "derived from the entry's id" carried down the recursion. -/
structure Generation where
  id : Nat
deriving DecidableEq, Repr

/-- Modelled from the spec: `ComboDirectoryEntry::try_get_gen` is called by
`parsers.rs` but not defined under `src/`; per the spec the generation tag is
derived from the combo entry's `id` field. -/
def ComboDirectoryEntry.try_get_gen (e : ComboDirectoryEntry) : Generation :=
  { id := e.id }

/-- Outcome of a computation that can panic (Rust unwinding aborts the whole
call, so no partial value survives a panic). -/
inductive MayPanic (α : Type) where
  | panicked
  | val (a : α)
deriving DecidableEq, Repr

/-- A decoded directory as built by the `make_dir!` macro: address, header and
the best-effort entry array. -/
structure Dir (H E : Type) where
  address : Nat
  header : H
  entries : List E
deriving DecidableEq, Repr

/-- The body of `make_dir!::new` (macros.rs), generic over the header and entry
layouts exactly as the macro is.  The checked fetches (`data.get`) return
errors; the unchecked entry-array slice `data[HEADER_SIZE..][..entries * ENTRY_SIZE]`
panics when the declared entry count does not fit in the remaining bytes. -/
def makeDirNew (headerSize entrySize : Nat) (parseHeader : Bytes → H)
    (parseEntry : Bytes → E) (getEntries : H → Nat) (fetchErr : Failure)
    (address : Nat) (data : Bytes) : MayPanic (Except Failure (Dir H E)) :=
  match sliceGetFrom data address with
  | none => .val (.error fetchErr)
  | some d =>
    match sliceGetTo d headerSize with
    | none => .val (.error fetchErr)
    | some hb =>
      let header := parseHeader hb
      let need := getEntries header * entrySize
      if need ≤ d.length - headerSize then
        .val (.ok
          { address := address, header := header,
            entries := (chunksExact entrySize ((d.drop headerSize).take need)).map parseEntry })
      else .panicked

/-- `ComboDirectory` generated by `make_dir!(pub ComboDirectory, ComboDirectoryHeader, ComboDirectoryEntry)`. -/
abbrev ComboDirectory := Dir ComboDirectoryHeader ComboDirectoryEntry

/-- `ComboDirectory::new`. -/
def ComboDirectory.new (address : Nat) (data : Bytes) :
    MayPanic (Except Failure ComboDirectory) :=
  makeDirNew 32 16 ComboDirectoryHeader.parse ComboDirectoryEntry.parse
    (fun h => h.entries) .couldNotFetchComboDirectory address data

/-- `PspDirectory` generated by `make_dir!(pub PspDirectory, DirectoryHeader, PspDirectoryEntry)`. -/
abbrev PspDirectory := Dir DirectoryHeader PspDirectoryEntry

/-- `PspDirectory::new`. -/
def PspDirectory.new (address : Nat) (data : Bytes) :
    MayPanic (Except Failure PspDirectory) :=
  makeDirNew 16 16 DirectoryHeader.parse PspDirectoryEntry.parse
    (fun h => h.entries) .couldNotFetchPspDirectory address data

/-- Walk-level abnormal terminations: a Rust panic (out-of-bounds index) or
model fuel exhaustion standing for unbounded recursion on cyclic input. -/
inductive WalkErr where
  | panicked
  | outOfFuel
deriving DecidableEq, Repr

/-- One `(location, outcome, generation)` triple produced by the walk
(`parsers.rs` iterator item type). -/
abbrev Triple := Nat × Except Failure PspEntryHeader × Option Generation

/-- Sequential flat-map over a list, aborting on the first abnormal
termination: the shape of the lazy `flat_map` iterators in `parsers.rs` once
collected. -/
def flatMapM (f : α → Except WalkErr (List β)) : List α → Except WalkErr (List β)
  | [] => .ok []
  | x :: xs =>
    match f x with
    | .error e => .error e
    | .ok t =>
      match flatMapM f xs with
      | .error e => .error e
      | .ok r => .ok (t ++ r)

/-- The four directory signatures recognised by `parse_directory`. -/
def sig2PSP : Bytes := [0x32, 0x50, 0x53, 0x50]

/-- Signature bytes of a combo BHD directory. -/
def sig2BHD : Bytes := [0x32, 0x42, 0x48, 0x44]

/-- Signature bytes of a simple PSP directory. -/
def sigPSP : Bytes := [0x24, 0x50, 0x53, 0x50]

/-- Signature bytes of a level-2 PSP directory. -/
def sigPL2 : Bytes := [0x24, 0x50, 0x4C, 0x32]

/-- The four leading bytes at `a`, or `none` when fewer than four bytes remain
(in which case the Rust expression `&data[address..][..4]` panics). -/
def sig4 (d : Bytes) (a : Nat) : Option Bytes :=
  if a + 4 ≤ d.length then some (((d.drop a).take 4).map (· % 256)) else none

/-- `parsers::parse_directory` with the bodies of `parse_combo_directory`,
`parse_psp_directory` and `parse_psp_entry` inlined at their single call
sites, and a fuel parameter making the recursion (unbounded in the source)
structural.  Dispatch order, signature sets, entry kinds, generation handling
and all failure triples follow the source. -/
def parseDirectory : Nat → Bytes → Nat → Nat → Option Generation →
    Except WalkErr (List Triple)
  | 0, _, _, _, _ => .error .outOfFuel
  | fuel + 1, data, address, offset, gen =>
    let address := resolve_location address offset
    match sig4 data address with
    | none => .error .panicked
    | some sig =>
      if sig = sig2PSP ∨ sig = sig2BHD then
        match ComboDirectory.new address data with
        | .panicked => .error .panicked
        | .val (.error e) => .ok [(address, .error e, none)]
        | .val (.ok dir) =>
          flatMapM
            (fun e => parseDirectory fuel data e.location offset (some e.try_get_gen))
            dir.entries
      else if sig = sigPSP ∨ sig = sigPL2 then
        match PspDirectory.new address data with
        | .panicked => .error .panicked
        | .val (.error e) => .ok [(address, .error e, gen)]
        | .val (.ok dir) =>
          flatMapM
            (fun e =>
              if e.kind = 0x40 ∨ e.kind = 0x70 then
                parseDirectory fuel data e.location offset gen
              else if e.kind = 0x08 ∨ e.kind = 0x12 then
                let location := resolve_location e.location offset
                match sliceGetFrom data location with
                | none => .ok [(location, .error .couldNotFetchPspEntryHeader, gen)]
                | some d =>
                  match PspEntryHeader.new d with
                  | .error er => .ok [(location, .error er, gen)]
                  | .ok h => .ok [(location, .ok h, gen)]
              else .ok [])
            dir.entries
      else .ok [(address, .error (.unknownSignature sig), gen)]

/-- `parsers::parse_psp_entry`: processing of one simple-directory entry,
dispatching on its kind tag. -/
def parsePspEntry (fuel : Nat) (data : Bytes) (e : PspDirectoryEntry)
    (offset : Nat) (gen : Option Generation) : Except WalkErr (List Triple) :=
  if e.kind = 0x40 ∨ e.kind = 0x70 then
    parseDirectory fuel data e.location offset gen
  else if e.kind = 0x08 ∨ e.kind = 0x12 then
    let location := resolve_location e.location offset
    match sliceGetFrom data location with
    | none => .ok [(location, .error .couldNotFetchPspEntryHeader, gen)]
    | some d =>
      match PspEntryHeader.new d with
      | .error er => .ok [(location, .error er, gen)]
      | .ok h => .ok [(location, .ok h, gen)]
  else .ok []

/-- Unfolding equation: on a simple-directory signature, `parseDirectory`
decodes the directory and flat-maps `parsePspEntry` over its entries. -/
theorem parseDirectory_psp_case (fuel : Nat) (data : Bytes)
    (address offset : Nat) (gen : Option Generation) (sig : Bytes) (dir : PspDirectory)
    (hsig : sig4 data (resolve_location address offset) = some sig)
    (hnc : ¬ (sig = sig2PSP ∨ sig = sig2BHD))
    (hs : sig = sigPSP ∨ sig = sigPL2)
    (hdir : PspDirectory.new (resolve_location address offset) data = .val (.ok dir)) :
    parseDirectory (fuel + 1) data address offset gen =
      flatMapM (fun e => parsePspEntry fuel data e offset gen) dir.entries := by
  simp only [parseDirectory, hsig]
  rw [if_neg hnc, if_pos hs, hdir]
  rfl

/-- Unfolding equation: on an unrecognised signature, `parseDirectory` yields
exactly one failure triple carrying the signature bytes. -/
theorem parseDirectory_unknown_sig (fuel : Nat) (data : Bytes)
    (address offset : Nat) (gen : Option Generation) (sig : Bytes)
    (hsig : sig4 data (resolve_location address offset) = some sig)
    (hnc : ¬ (sig = sig2PSP ∨ sig = sig2BHD))
    (hns : ¬ (sig = sigPSP ∨ sig = sigPL2)) :
    parseDirectory (fuel + 1) data address offset gen =
      .ok [(resolve_location address offset, .error (.unknownSignature sig), gen)] := by
  simp only [parseDirectory, hsig]
  rw [if_neg hnc, if_neg hns]

/-- Stable insertion of `x` into `l`: `x` passes only elements strictly
smaller under `cmp`, so elements comparing equal keep their original order. -/
def stableInsert (cmp : α → α → Ordering) (x : α) : List α → List α
  | [] => [x]
  | y :: ys => if cmp x y = .gt then y :: stableInsert cmp x ys else x :: y :: ys

/-- Stable sort by a comparator, modelling Rust `slice::sort_by` /
`sort_by_key` (Rust sorts are stable; any stable sort agrees with this one on
total preorder comparators). -/
def stableSortBy (cmp : α → α → Ordering) : List α → List α
  | [] => []
  | x :: xs => stableInsert cmp x (stableSortBy cmp xs)

/-- Auxiliary for `dedupByKey`: `prev` is the last retained element. -/
def dedupByKeyAux (f : α → Nat) (prev : α) : List α → List α
  | [] => []
  | y :: ys =>
    if f y = f prev then dedupByKeyAux f prev ys else y :: dedupByKeyAux f y ys

/-- Rust `Vec::dedup_by_key`: remove all but the first of consecutive elements
sharing a key. -/
def dedupByKey (f : α → Nat) : List α → List α
  | [] => []
  | x :: xs => x :: dedupByKeyAux f x xs

theorem stableInsert_perm (cmp : α → α → Ordering) (x : α) (l : List α) :
    (stableInsert cmp x l).Perm (x :: l) := by
  induction l with
  | nil => exact List.Perm.refl _
  | cons y ys ih =>
    simp only [stableInsert]
    by_cases h : cmp x y = .gt
    · rw [if_pos h]
      exact (ih.cons y).trans (List.Perm.swap x y ys)
    · rw [if_neg h]

theorem stableSortBy_perm (cmp : α → α → Ordering) (l : List α) :
    (stableSortBy cmp l).Perm l := by
  induction l with
  | nil => exact List.Perm.refl _
  | cons x xs ih => exact (stableInsert_perm cmp x _).trans (ih.cons x)

theorem stableInsert_pairwise_le (cmp : α → α → Ordering)
    (hswap : ∀ a b, cmp a b = (cmp b a).swap)
    (htrans : ∀ a b c, cmp a b ≠ .gt → cmp b c ≠ .gt → cmp a c ≠ .gt)
    (x : α) (l : List α) (hl : l.Pairwise (fun a b => cmp a b ≠ .gt)) :
    (stableInsert cmp x l).Pairwise (fun a b => cmp a b ≠ .gt) := by
  induction l with
  | nil => simp [stableInsert]
  | cons y ys ih =>
    rcases List.pairwise_cons.mp hl with ⟨hy, hys⟩
    simp only [stableInsert]
    by_cases h : cmp x y = .gt
    · rw [if_pos h]
      refine List.pairwise_cons.mpr ⟨?_, ih hys⟩
      intro z hz
      rcases List.mem_cons.mp ((stableInsert_perm cmp x ys).mem_iff.mp hz) with hz2 | hz2
      · rw [hz2]
        rw [hswap y x, h]
        simp [Ordering.swap]
      · exact hy z hz2
    · rw [if_neg h]
      refine List.pairwise_cons.mpr ⟨?_, hl⟩
      intro z hz
      rcases List.mem_cons.mp hz with rfl | hz2
      · exact h
      · exact htrans x y z h (hy z hz2)

theorem stableSortBy_pairwise_le (cmp : α → α → Ordering)
    (hswap : ∀ a b, cmp a b = (cmp b a).swap)
    (htrans : ∀ a b c, cmp a b ≠ .gt → cmp b c ≠ .gt → cmp a c ≠ .gt)
    (l : List α) :
    (stableSortBy cmp l).Pairwise (fun a b => cmp a b ≠ .gt) := by
  induction l with
  | nil => simp [stableSortBy]
  | cons x xs ih => exact stableInsert_pairwise_le cmp hswap htrans x _ ih

theorem stableInsert_pairwise_tie (cmp : α → α → Ordering) {R : α → α → Prop}
    (hswap : ∀ a b, cmp a b = (cmp b a).swap)
    (x : α) (l : List α)
    (hx : ∀ y ∈ l, cmp x y = .eq → R x y)
    (hl : l.Pairwise (fun a b => cmp a b = .eq → R a b)) :
    (stableInsert cmp x l).Pairwise (fun a b => cmp a b = .eq → R a b) := by
  induction l with
  | nil => simp [stableInsert]
  | cons y ys ih =>
    rcases List.pairwise_cons.mp hl with ⟨hy, hys⟩
    simp only [stableInsert]
    by_cases h : cmp x y = .gt
    · rw [if_pos h]
      refine List.pairwise_cons.mpr
        ⟨?_, ih (fun z hz he => hx z (List.mem_cons_of_mem y hz) he) hys⟩
      intro z hz
      rcases List.mem_cons.mp ((stableInsert_perm cmp x ys).mem_iff.mp hz) with hz2 | hz2
      · rw [hz2]
        intro he
        rw [hswap y x, h] at he
        simp [Ordering.swap] at he
      · exact hy z hz2
    · rw [if_neg h]
      refine List.pairwise_cons.mpr ⟨?_, hl⟩
      intro z hz
      rcases List.mem_cons.mp hz with rfl | hz2
      · exact hx z (List.mem_cons_self z ys)
      · exact hx z (List.mem_cons_of_mem y hz2)

theorem stableSortBy_pairwise_tie (cmp : α → α → Ordering) {R : α → α → Prop}
    (hswap : ∀ a b, cmp a b = (cmp b a).swap)
    (l : List α) (hl : l.Pairwise (fun a b => cmp a b = .eq → R a b)) :
    (stableSortBy cmp l).Pairwise (fun a b => cmp a b = .eq → R a b) := by
  induction l with
  | nil => simp [stableSortBy]
  | cons x xs ih =>
    rcases List.pairwise_cons.mp hl with ⟨hx, hxs⟩
    refine stableInsert_pairwise_tie cmp hswap x _ ?_ (ih hxs)
    intro y hy
    exact hx y ((stableSortBy_perm cmp xs).mem_iff.mp hy)

theorem stableInsert_filter (cmp : α → α → Ordering) (p : α → Bool)
    (x : α) (l : List α)
    (hcl : ∀ y ∈ l, p x = true → p y = true → cmp x y ≠ .gt) :
    (stableInsert cmp x l).filter p = (x :: l).filter p := by
  induction l with
  | nil => rfl
  | cons y ys ih =>
    simp only [stableInsert]
    by_cases h : cmp x y = .gt
    · rw [if_pos h]
      have hxy : ¬ (p x = true ∧ p y = true) := by
        intro ⟨hpx, hpy⟩
        exact hcl y (List.mem_cons_self y ys) hpx hpy h
      have ihr := ih (fun z hz => hcl z (List.mem_cons_of_mem y hz))
      by_cases hpx : p x = true
      · have hpy : p y = false := by
          cases hb : p y
          · rfl
          · exact absurd ⟨hpx, hb⟩ hxy
        simp [List.filter_cons, hpx, hpy, ihr]
      · have hpx2 : p x = false := by
          cases hb : p x
          · rfl
          · exact absurd hb hpx
        simp [List.filter_cons, hpx2, ihr]
    · rw [if_neg h]

theorem stableSortBy_filter (cmp : α → α → Ordering) (p : α → Bool)
    (hp : ∀ a b, p a = true → p b = true → cmp a b ≠ .gt) (l : List α) :
    (stableSortBy cmp l).filter p = l.filter p := by
  induction l with
  | nil => rfl
  | cons x xs ih =>
    have h1 := stableInsert_filter cmp p x (stableSortBy cmp xs)
      (fun y _ hx hy => hp x y hx hy)
    simp only [stableSortBy, h1, List.filter_cons]
    by_cases hpx : p x = true
    · simp [hpx, ih]
    · have hpx2 : p x = false := by
        cases hb : p x
        · rfl
        · exact absurd hb hpx
      simp [hpx2, ih]

theorem dedupByKeyAux_pairwise (f : α → Nat) (ys : List α) :
    ∀ prev, (prev :: ys).Pairwise (fun a b => f a ≤ f b) →
      (prev :: dedupByKeyAux f prev ys).Pairwise (fun a b => f a < f b) := by
  induction ys with
  | nil => intro prev _; simp [dedupByKeyAux]
  | cons y ys ih =>
    intro prev hp
    rcases List.pairwise_cons.mp hp with ⟨hprev, htail⟩
    rcases List.pairwise_cons.mp htail with ⟨hy, hys⟩
    simp only [dedupByKeyAux]
    by_cases h : f y = f prev
    · rw [if_pos h]
      refine ih prev (List.pairwise_cons.mpr ⟨?_, hys⟩)
      intro z hz
      exact hprev z (List.mem_cons_of_mem y hz)
    · rw [if_neg h]
      have h2 := ih y htail
      refine List.pairwise_cons.mpr ⟨?_, h2⟩
      intro z hz
      have hpy : f prev < f y :=
        Nat.lt_of_le_of_ne (hprev y (List.mem_cons_self y ys)) (fun he => h he.symm)
      rcases List.mem_cons.mp hz with rfl | hz2
      · exact hpy
      · exact Nat.lt_trans hpy ((List.pairwise_cons.mp h2).1 z hz2)

theorem dedupByKey_pairwise (f : α → Nat) (l : List α)
    (hl : l.Pairwise (fun a b => f a ≤ f b)) :
    (dedupByKey f l).Pairwise (fun a b => f a < f b) := by
  cases l with
  | nil => simp [dedupByKey]
  | cons x xs => exact dedupByKeyAux_pairwise f xs x hl

theorem dedupByKeyAux_filter_eq_nil (f : α → Nat) (ys : List α) (prev : α) (L : Nat)
    (hp : (prev :: ys).Pairwise (fun a b => f a ≤ f b)) (hL : f prev = L) :
    (dedupByKeyAux f prev ys).filter (fun t => f t == L) = [] := by
  have h1 := dedupByKeyAux_pairwise f ys prev hp
  have h2 := (List.pairwise_cons.mp h1).1
  rw [List.filter_eq_nil_iff]
  intro z hz
  have := h2 z hz
  simp only [beq_iff_eq]
  omega

theorem dedupByKeyAux_filter_take (f : α → Nat) (ys : List α) :
    ∀ prev L, (prev :: ys).Pairwise (fun a b => f a ≤ f b) → f prev ≠ L →
      (dedupByKeyAux f prev ys).filter (fun t => f t == L) =
        (ys.filter (fun t => f t == L)).take 1 := by
  induction ys with
  | nil => intro prev L _ _; rfl
  | cons y ys ih =>
    intro prev L hp hL
    rcases List.pairwise_cons.mp hp with ⟨hprev, htail⟩
    simp only [dedupByKeyAux]
    by_cases h : f y = f prev
    · rw [if_pos h]
      have hyL : (f y == L) = false := by
        simp only [beq_eq_false_iff_ne]
        rw [h]
        exact hL
      rw [List.filter_cons, hyL]
      refine ih prev L (List.pairwise_cons.mpr ⟨?_, (List.pairwise_cons.mp htail).2⟩) hL
      intro z hz
      exact hprev z (List.mem_cons_of_mem y hz)
    · rw [if_neg h]
      by_cases hyL : f y = L
      · have hb : (f y == L) = true := by simp [hyL]
        rw [List.filter_cons, hb, List.filter_cons, hb]
        rw [dedupByKeyAux_filter_eq_nil f ys y L htail hyL]
        rfl
      · have hb : (f y == L) = false := by simp [hyL]
        rw [List.filter_cons, hb, List.filter_cons, hb]
        exact ih y L htail hyL

theorem dedupByKey_filter (f : α → Nat) (l : List α) (L : Nat)
    (hl : l.Pairwise (fun a b => f a ≤ f b)) :
    (dedupByKey f l).filter (fun t => f t == L) =
      (l.filter (fun t => f t == L)).take 1 := by
  cases l with
  | nil => rfl
  | cons x xs =>
    simp only [dedupByKey]
    by_cases h : f x = L
    · have hb : (f x == L) = true := by simp [h]
      rw [List.filter_cons, hb, List.filter_cons, hb]
      rw [dedupByKeyAux_filter_eq_nil f xs x L hl h]
      rfl
    · have hb : (f x == L) = false := by simp [h]
      rw [List.filter_cons, hb, List.filter_cons, hb]
      exact dedupByKeyAux_filter_take f xs x L hl h

theorem perm_eq_of_length_le_one {l₁ l₂ : List α} (h : l₁.Perm l₂)
    (hl : l₂.length ≤ 1) : l₁ = l₂ := by
  cases l₂ with
  | nil => exact List.Perm.eq_nil h
  | cons a l =>
    cases l with
    | nil => exact List.perm_singleton.mp h
    | cons b l2 => simp at hl

theorem filter_length_le_one (f : α → Nat) {l : List α}
    (h : l.Pairwise (fun a b => f a < f b)) (L : Nat) :
    (l.filter (fun t => f t == L)).length ≤ 1 := by
  have h2 := h.filter (fun t => f t == L)
  cases hf : l.filter (fun t => f t == L) with
  | nil => simp
  | cons a l2 =>
    cases l2 with
    | nil => simp
    | cons b l3 =>
      rw [hf] at h2
      have hab := (List.pairwise_cons.mp h2).1 b (List.mem_cons_self b l3)
      have hma : a ∈ List.filter (fun t => f t == L) l := by
        rw [hf]; exact List.mem_cons_self a _
      have hmb : b ∈ List.filter (fun t => f t == L) l := by
        rw [hf]; exact List.mem_cons_of_mem a (List.mem_cons_self b l3)
      have ha := List.of_mem_filter hma
      have hb := List.of_mem_filter hmb
      simp only [beq_iff_eq] at ha hb
      omega

theorem ord_ne_gt (o : Ordering) : o ≠ .gt ↔ (o = .lt ∨ o = .eq) := by
  cases o <;> simp

theorem Version.cmp_eq_lt_iff (a b : Version) :
    a.cmp b = .lt ↔
      (a.major < b.major ∨ (a.major = b.major ∧
        (a.minor < b.minor ∨ (a.minor = b.minor ∧
          (a.micro < b.micro ∨ (a.micro = b.micro ∧ a.build < b.build)))))) := by
  simp only [Version.cmp, Ordering.then_eq_lt, Ordering.then_eq_eq,
    Nat.compare_eq_lt, Nat.compare_eq_eq]
  simp only [reduceCtorEq, false_or, false_and, true_and, and_true]
  tauto

theorem Version.cmp_eq_eq_iff (a b : Version) :
    a.cmp b = .eq ↔
      (a.major = b.major ∧ a.minor = b.minor ∧ a.micro = b.micro ∧
        a.build = b.build) := by
  simp only [Version.cmp, Ordering.then_eq_eq, Nat.compare_eq_eq]
  simp only [reduceCtorEq, false_or, false_and, true_and, and_true]
  tauto

theorem Version.cmp_eq_eq_iff_eq (a b : Version) : a.cmp b = .eq ↔ a = b := by
  rw [Version.cmp_eq_eq_iff]
  constructor
  · intro ⟨h1, h2, h3, h4⟩
    cases a; cases b
    simp_all
  · intro h
    subst h
    simp

theorem Version.cmp_swap (a b : Version) : a.cmp b = (b.cmp a).swap := by
  simp only [Version.cmp, Ordering.swap_then, Nat.compare_swap]
  rfl

theorem Version.cmp_le_trans {a b c : Version}
    (h1 : a.cmp b ≠ .gt) (h2 : b.cmp c ≠ .gt) : a.cmp c ≠ .gt := by
  rw [ord_ne_gt] at h1 h2 ⊢
  rw [Version.cmp_eq_lt_iff, Version.cmp_eq_eq_iff] at h1 h2 ⊢
  omega

/-- The per-triple comparator of `vec.sort_by_key(|&(location, _, _)| location)`. -/
def cmpByLocation (t1 t2 : Triple) : Ordering := compare t1.1 t2.1

/-- The comparator of the first `sort_by` in `parse_directories`: successes by
`packed_size`, successes before failures, failures tied. -/
def cmpBySize (t1 t2 : Triple) : Ordering :=
  match t1.2.1, t2.2.1 with
  | .ok h1, .ok h2 => compare h1.packed_size h2.packed_size
  | .ok _, .error _ => .lt
  | .error _, .ok _ => .gt
  | .error _, .error _ => .eq

/-- The comparator of the second `sort_by` in `parse_directories`: successes by
`get_version()`, successes before failures, failures tied. -/
def cmpByVersion (t1 t2 : Triple) : Ordering :=
  match t1.2.1, t2.2.1 with
  | .ok h1, .ok h2 => Version.cmp h1.get_version h2.get_version
  | .ok _, .error _ => .lt
  | .error _, .ok _ => .gt
  | .error _, .error _ => .eq

/-- The reconciliation pipeline of `parse_directories`: stable sort by
location, dedup by location, stable sort by packed size, stable sort by
version. -/
def reconcile (v : List Triple) : List Triple :=
  stableSortBy cmpByVersion
    (stableSortBy cmpBySize
      (dedupByKey (fun t => t.1) (stableSortBy cmpByLocation v)))

/-- `parsers::parse_directories`: collect the walk, then reconcile. -/
def parse_directories (fuel : Nat) (data : Bytes) (address offset : Nat) :
    Except WalkErr (List Triple) :=
  match parseDirectory fuel data address offset none with
  | .error e => .error e
  | .ok v => .ok (reconcile v)

theorem cmpByLocation_swap (t1 t2 : Triple) :
    cmpByLocation t1 t2 = (cmpByLocation t2 t1).swap :=
  (Nat.compare_swap t2.1 t1.1).symm

theorem cmpByLocation_le_trans {t1 t2 t3 : Triple}
    (h1 : cmpByLocation t1 t2 ≠ .gt) (h2 : cmpByLocation t2 t3 ≠ .gt) :
    cmpByLocation t1 t3 ≠ .gt := by
  rw [ord_ne_gt] at h1 h2 ⊢
  simp only [cmpByLocation, Nat.compare_eq_lt, Nat.compare_eq_eq] at h1 h2 ⊢
  omega

theorem cmpByLocation_le_iff (t1 t2 : Triple) :
    cmpByLocation t1 t2 ≠ .gt ↔ t1.1 ≤ t2.1 := by
  rw [ord_ne_gt]
  simp only [cmpByLocation, Nat.compare_eq_lt, Nat.compare_eq_eq]
  omega

theorem cmpByLocation_eq_iff (t1 t2 : Triple) :
    cmpByLocation t1 t2 = .eq ↔ t1.1 = t2.1 := by
  simp [cmpByLocation, Nat.compare_eq_eq]

theorem cmpBySize_swap (t1 t2 : Triple) :
    cmpBySize t1 t2 = (cmpBySize t2 t1).swap := by
  rcases t1 with ⟨l1, o1, g1⟩
  rcases t2 with ⟨l2, o2, g2⟩
  cases o1 <;> cases o2 <;>
    simp [cmpBySize, Ordering.swap] <;>
    exact (Nat.compare_swap _ _).symm

theorem cmpBySize_le_trans {t1 t2 t3 : Triple}
    (h1 : cmpBySize t1 t2 ≠ .gt) (h2 : cmpBySize t2 t3 ≠ .gt) :
    cmpBySize t1 t3 ≠ .gt := by
  rcases t1 with ⟨l1, o1, g1⟩
  rcases t2 with ⟨l2, o2, g2⟩
  rcases t3 with ⟨l3, o3, g3⟩
  cases o1 <;> cases o2 <;> cases o3 <;>
    simp_all [cmpBySize, ord_ne_gt, Nat.compare_eq_lt, Nat.compare_eq_eq] <;>
    omega

theorem cmpByVersion_swap (t1 t2 : Triple) :
    cmpByVersion t1 t2 = (cmpByVersion t2 t1).swap := by
  rcases t1 with ⟨l1, o1, g1⟩
  rcases t2 with ⟨l2, o2, g2⟩
  cases o1 <;> cases o2 <;>
    simp [cmpByVersion, Ordering.swap] <;>
    exact Version.cmp_swap _ _

theorem cmpByVersion_le_trans {t1 t2 t3 : Triple}
    (h1 : cmpByVersion t1 t2 ≠ .gt) (h2 : cmpByVersion t2 t3 ≠ .gt) :
    cmpByVersion t1 t3 ≠ .gt := by
  rcases t1 with ⟨l1, o1, g1⟩
  rcases t2 with ⟨l2, o2, g2⟩
  rcases t3 with ⟨l3, o3, g3⟩
  cases o1 <;> cases o2 <;> cases o3 <;>
    simp only [cmpByVersion] at h1 h2 ⊢ <;>
    first
    | exact Version.cmp_le_trans h1 h2
    | exact absurd rfl h1
    | exact absurd rfl h2
    | simp

/-- The presentation order claimed by the spec: successes before failures,
successes by version with ties broken directly by location, failures by
location. -/
def claimOrder (t1 t2 : Triple) : Prop :=
  match t1.2.1, t2.2.1 with
  | .ok h1, .ok h2 =>
      Version.cmp h1.get_version h2.get_version = .lt ∨
        (h1.get_version = h2.get_version ∧ t1.1 < t2.1)
  | .ok _, .error _ => True
  | .error _, .ok _ => False
  | .error _, .error _ => t1.1 < t2.1

/-- The presentation order the code actually produces: successes before
failures, successes by version with ties broken by packed size and then by
location, failures by location. -/
def amendedOrder (t1 t2 : Triple) : Prop :=
  match t1.2.1, t2.2.1 with
  | .ok h1, .ok h2 =>
      Version.cmp h1.get_version h2.get_version = .lt ∨
        (h1.get_version = h2.get_version ∧
          (h1.packed_size < h2.packed_size ∨
            (h1.packed_size = h2.packed_size ∧ t1.1 < t2.1)))
  | .ok _, .error _ => True
  | .error _, .ok _ => False
  | .error _, .error _ => t1.1 < t2.1

instance (t1 t2 : Triple) : Decidable (claimOrder t1 t2) :=
  match t1, t2 with
  | (_, .ok _, _), (_, .ok _, _) => inferInstanceAs (Decidable (_ ∨ _))
  | (_, .ok _, _), (_, .error _, _) => inferInstanceAs (Decidable True)
  | (_, .error _, _), (_, .ok _, _) => inferInstanceAs (Decidable False)
  | (_, .error _, _), (_, .error _, _) => inferInstanceAs (Decidable (_ < _))

instance (t1 t2 : Triple) : Decidable (amendedOrder t1 t2) :=
  match t1, t2 with
  | (_, .ok _, _), (_, .ok _, _) => inferInstanceAs (Decidable (_ ∨ _))
  | (_, .ok _, _), (_, .error _, _) => inferInstanceAs (Decidable True)
  | (_, .error _, _), (_, .ok _, _) => inferInstanceAs (Decidable False)
  | (_, .error _, _), (_, .error _, _) => inferInstanceAs (Decidable (_ < _))

theorem amended_of_combined (t1 t2 : Triple)
    (h : cmpByVersion t1 t2 ≠ .gt ∧
      (cmpByVersion t1 t2 = .eq →
        (cmpBySize t1 t2 ≠ .gt ∧ (cmpBySize t1 t2 = .eq → t1.1 < t2.1)))) :
    amendedOrder t1 t2 := by
  rcases t1 with ⟨l1, o1, g1⟩
  rcases t2 with ⟨l2, o2, g2⟩
  rcases h with ⟨hle, htie⟩
  cases o1 with
  | error e1 =>
    cases o2 with
    | error e2 => exact (htie rfl).2 rfl
    | ok h2 => exact absurd rfl hle
  | ok h1 =>
    cases o2 with
    | error e2 => exact trivial
    | ok h2 =>
      simp only [cmpByVersion, cmpBySize] at hle htie
      simp only [amendedOrder]
      rcases (ord_ne_gt _).mp hle with hlt | heq
      · exact Or.inl hlt
      · refine Or.inr ⟨(Version.cmp_eq_eq_iff_eq _ _).mp heq, ?_⟩
        rcases htie heq with ⟨hsle, hstie⟩
        rcases (ord_ne_gt _).mp hsle with hslt | hseq
        · exact Or.inl (Nat.compare_eq_lt.mp hslt)
        · exact Or.inr ⟨Nat.compare_eq_eq.mp hseq, hstie hseq⟩

theorem reconcile_pairwise_amended (v : List Triple) :
    (reconcile v).Pairwise amendedOrder := by
  have hv1 : (stableSortBy cmpByLocation v).Pairwise
      (fun a b : Triple => (fun t : Triple => t.1) a ≤ (fun t : Triple => t.1) b) :=
    (stableSortBy_pairwise_le cmpByLocation cmpByLocation_swap
      (fun a b c hab hbc => cmpByLocation_le_trans hab hbc) v).imp
      (fun h => (cmpByLocation_le_iff _ _).mp h)
  have hv2lt := dedupByKey_pairwise (fun t : Triple => t.1) _ hv1
  have hv2tie : (dedupByKey (fun t : Triple => t.1) (stableSortBy cmpByLocation v)).Pairwise
      (fun a b => cmpBySize a b = .eq → a.1 < b.1) := by
    refine hv2lt.imp ?_
    intro a b hab _
    exact hab
  have hv3le := stableSortBy_pairwise_le cmpBySize cmpBySize_swap
    (fun a b c hab hbc => cmpBySize_le_trans hab hbc)
    (dedupByKey (fun t : Triple => t.1) (stableSortBy cmpByLocation v))
  have hv3tie := stableSortBy_pairwise_tie cmpBySize cmpBySize_swap _ hv2tie
  have hv3and := hv3le.and hv3tie
  have hv4le := stableSortBy_pairwise_le cmpByVersion cmpByVersion_swap
    (fun a b c hab hbc => cmpByVersion_le_trans hab hbc)
    (stableSortBy cmpBySize (dedupByKey (fun t : Triple => t.1) (stableSortBy cmpByLocation v)))
  have hv3and2 : (stableSortBy cmpBySize
      (dedupByKey (fun t : Triple => t.1) (stableSortBy cmpByLocation v))).Pairwise
      (fun a b => cmpByVersion a b = .eq →
        (cmpBySize a b ≠ .gt ∧ (cmpBySize a b = .eq → a.1 < b.1))) := by
    refine hv3and.imp ?_
    intro a b hab _
    exact hab
  have hv4tie := stableSortBy_pairwise_tie cmpByVersion cmpByVersion_swap _ hv3and2
  refine (hv4le.and hv4tie).imp ?_
  intro a b hab
  exact amended_of_combined a b hab

theorem reconcile_perm_dedup (v : List Triple) :
    (reconcile v).Perm
      (dedupByKey (fun t : Triple => t.1) (stableSortBy cmpByLocation v)) :=
  (stableSortBy_perm cmpByVersion _).trans (stableSortBy_perm cmpBySize _)

theorem stableSortBy_loc_pairwise (v : List Triple) :
    (stableSortBy cmpByLocation v).Pairwise
      (fun a b : Triple => (fun t : Triple => t.1) a ≤ (fun t : Triple => t.1) b) :=
  (stableSortBy_pairwise_le cmpByLocation cmpByLocation_swap
    (fun a b c hab hbc => cmpByLocation_le_trans hab hbc) v).imp
    (fun h => (cmpByLocation_le_iff _ _).mp h)

theorem stableSortBy_loc_filter (l : List Triple) (L : Nat) :
    (stableSortBy cmpByLocation l).filter (fun t => t.1 == L) =
      l.filter (fun t => t.1 == L) := by
  refine stableSortBy_filter cmpByLocation _ ?_ l
  intro a b ha hb
  rw [cmpByLocation_le_iff]
  simp only [beq_iff_eq] at ha hb
  omega

theorem reconcile_filter (v : List Triple) (L : Nat) :
    (reconcile v).filter (fun t => t.1 == L) =
      (v.filter (fun t => t.1 == L)).take 1 := by
  have hv1 := stableSortBy_loc_pairwise v
  have hv2lt := dedupByKey_pairwise (fun t : Triple => t.1) _ hv1
  have h1 : (reconcile v).filter (fun t => t.1 == L) =
      (dedupByKey (fun t : Triple => t.1) (stableSortBy cmpByLocation v)).filter
        (fun t => t.1 == L) := by
    refine perm_eq_of_length_le_one ((reconcile_perm_dedup v).filter _) ?_
    exact filter_length_le_one (fun t : Triple => t.1) hv2lt L
  rw [h1]
  rw [dedupByKey_filter (fun t : Triple => t.1) _ L hv1]
  rw [stableSortBy_loc_filter v L]

theorem reconcile_nodup (v : List Triple) :
    ((reconcile v).map (fun t : Triple => t.1)).Nodup := by
  have hv1 := stableSortBy_loc_pairwise v
  have hv2lt := dedupByKey_pairwise (fun t : Triple => t.1) _ hv1
  have hnd : ((dedupByKey (fun t : Triple => t.1)
      (stableSortBy cmpByLocation v)).map (fun t : Triple => t.1)).Nodup := by
    refine List.pairwise_map.mpr ?_
    refine hv2lt.imp ?_
    intro a b hab
    exact Nat.ne_of_lt hab
  exact (((reconcile_perm_dedup v).map (fun t : Triple => t.1)).symm).nodup hnd

deriving instance DecidableEq for Except

/-- Byte class `[0-9a-zA-Z]` of the AGESA regex. -/
def isAlnum (c : Nat) : Bool :=
  (48 ≤ c && c ≤ 57) || (65 ≤ c && c ≤ 90) || (97 ≤ c && c ≤ 122)

/-- Byte class `[0-9a-zA-Z .\-]` of the AGESA regex. -/
def isIdentChar (c : Nat) : Bool :=
  isAlnum c || c == 32 || c == 46 || c == 45

/-- Length of the leftmost-first match of the pattern
`AGESA![0-9a-zA-Z]{0,10}\x00{0,1}[0-9a-zA-Z .\-]+` anchored at the start of
`s`, or `none`.  Greedy preference order of the bounded quantifiers is
compiled out: the alphanumeric counter backtracks from its greedy maximum,
and the optional NUL is taken only when an identifier character follows. -/
def agesaMatchLen (s : Bytes) : Option Nat :=
  if s.take 6 = [65, 71, 69, 83, 65, 33] then
    let rest := s.drop 6
    let a := (rest.takeWhile (fun c => isAlnum c)).length
    if 10 < a then
      some (16 + ((rest.drop 10).takeWhile (fun c => isIdentChar c)).length)
    else
      match rest.drop a with
      | 0 :: t2 =>
        if isIdentChar (t2.headD 0) then
          some (6 + a + 1 + (t2.takeWhile (fun c => isIdentChar c)).length)
        else if 1 ≤ a then some (6 + a) else none
      | c :: t2 =>
        if isIdentChar c then
          some (6 + a + ((c :: t2).takeWhile (fun c2 => isIdentChar c2)).length)
        else if 1 ≤ a then some (6 + a) else none
      | [] => if 1 ≤ a then some (6 + a) else none
  else none

/-- Successive non-overlapping leftmost matches (regex `captures_iter`), with
fuel bounding the scan; every step consumes at least one byte, so fuel equal
to the buffer length is exact. -/
def agesaScanAux : Nat → Bytes → Nat → List (Nat × Bytes)
  | 0, _, _ => []
  | fuel + 1, s, base =>
    match s with
    | [] => []
    | _ :: tail =>
      match agesaMatchLen s with
      | some len => (base, s.take len) :: agesaScanAux fuel (s.drop len) (base + len)
      | none => agesaScanAux fuel tail (base + 1)

/-- `find_pattern(data, AGESA_PATTERN)`: capture group 1 is the whole match. -/
def findPatternAgesa (data : Bytes) : List (Nat × Bytes) :=
  agesaScanAux data.length data 0

/-- First 16 literal bytes of `AGESA_SECTION_PATTERN` (the outer GUID). -/
def sectionGuid1 : Bytes :=
  [0x93, 0xFD, 0x21, 0x9E, 0x72, 0x9C, 0x15, 0x4C,
   0x8C, 0x4B, 0xE7, 0x7F, 0x1D, 0xB2, 0xD7, 0x92]

/-- Inner 16 literal bytes of `AGESA_SECTION_PATTERN` (the LZMA section GUID). -/
def sectionGuid2 : Bytes :=
  [0x98, 0x58, 0x4E, 0xEE, 0x14, 0x39, 0x59, 0x42,
   0x9D, 0x6E, 0xDC, 0x7B, 0xD7, 0x94, 0x03, 0xCF]

/-- Whether the 48-byte section pattern matches at the start of `s`:
outer GUID, 8 arbitrary bytes, then the 24-byte capture
(3 size bytes + 1 reserved + inner GUID + 4 reserved). -/
def sectionMatchAt (s : Bytes) : Bool :=
  decide (48 ≤ s.length) && (((s.take 16).map (· % 256)) == sectionGuid1) &&
    ((((s.drop 28).take 16).map (· % 256)) == sectionGuid2)

/-- Successive non-overlapping matches of the section pattern; the reported
offset and bytes are those of capture group 1 (offset 24 into the match,
24 bytes long). -/
def sectionScanAux : Nat → Bytes → Nat → List (Nat × Bytes)
  | 0, _, _ => []
  | fuel + 1, s, base =>
    match s with
    | [] => []
    | _ :: tail =>
      if sectionMatchAt s then
        (base + 24, ((s.drop 24).take 24).map (· % 256)) ::
          sectionScanAux fuel (s.drop 48) (base + 48)
      else sectionScanAux fuel tail (base + 1)

/-- `find_pattern(data, AGESA_SECTION_PATTERN)`. -/
def findPatternSection (data : Bytes) : List (Nat × Bytes) :=
  sectionScanAux data.length data 0

/-- `structs::EfiGuidDefinedSection` (24 bytes). -/
structure EfiGuidDefinedSection where
  size : Bytes
  rsvd_03 : Bytes
  guid : Bytes
  rsvd_14 : Bytes
deriving DecidableEq, Repr

/-- Reinterpret a 24-byte chunk as an `EfiGuidDefinedSection`. -/
def EfiGuidDefinedSection.parse (d : Bytes) : EfiGuidDefinedSection where
  size := bytesSeg d 0 3
  rsvd_03 := bytesSeg d 3 1
  guid := bytesSeg d 4 16
  rsvd_14 := bytesSeg d 20 4

/-- Failure of `EfiGuidDefinedSection::new`. -/
inductive GuidErr where
  | couldNotFetchGuidDefinedSectionHeader
deriving DecidableEq, Repr

/-- `EfiGuidDefinedSection::new`: checked 24-byte fetch then reinterpretation. -/
def EfiGuidDefinedSection.new (data : Bytes) : Except GuidErr EfiGuidDefinedSection :=
  match sliceGetTo data 24 with
  | none => .error .couldNotFetchGuidDefinedSectionHeader
  | some chunk => .ok (EfiGuidDefinedSection.parse chunk)

/-- `EfiGuidDefinedSection::get_full_size`: 3-byte little-endian size. -/
def EfiGuidDefinedSection.get_full_size (h : EfiGuidDefinedSection) : Nat :=
  readByte h.size 0 ||| (readByte h.size 1 <<< 8) ||| (readByte h.size 2 <<< 16)

/-- `EfiGuidDefinedSection::get_body_size`: `full_size - 24` as Rust `usize`
arithmetic (wrapping on underflow in release builds). -/
def EfiGuidDefinedSection.get_body_size (h : EfiGuidDefinedSection) : Nat :=
  (h.get_full_size + 18446744073709551616 - 24) % 18446744073709551616

/-- Rust `u8 as char` with the NUL-to-space substitution of `try_find_agesa`. -/
def renderAgesa (bs : Bytes) : String :=
  String.mk (bs.map (fun b => if b % 256 = 0 then Char.ofNat 32 else Char.ofNat (b % 256)))

/-- The per-section loop of `try_find_agesa`: every failure is local (log and
continue); each successfully decompressed volume contributes at most its
first plaintext match.  The LZMA decompressor is an external collaborator and
is passed in as a function. -/
def processSections (lzma : Bytes → Option Bytes) (data : Bytes) :
    List (Nat × Bytes) → List String
  | [] => []
  | (addr, sbytes) :: rest =>
    match EfiGuidDefinedSection.new sbytes with
    | .error _ => processSections lzma data rest
    | .ok hdr =>
      match (sliceGetFrom data (addr + 24)).bind
          (fun x => sliceGetTo x hdr.get_body_size) with
      | none => processSections lzma data rest
      | some enc =>
        match lzma enc with
        | none => processSections lzma data rest
        | some dec =>
          match findPatternAgesa dec with
          | [] => processSections lzma data rest
          | p :: _ => renderAgesa p.2 :: processSections lzma data rest

/-- Failure of `try_find_agesa`. -/
inductive AgesaErr where
  | couldNotFindSectionPattern
deriving DecidableEq, Repr

/-- `utils::try_find_agesa`, generic over the section scanner so that
independence from the compressed-volume path is expressible. -/
def tryFindAgesaGen (sscan : Bytes → List (Nat × Bytes))
    (lzma : Bytes → Option Bytes) (data : Bytes) : Except AgesaErr (List String) :=
  let agesa := (findPatternAgesa data).map (fun p => renderAgesa p.2)
  if agesa.isEmpty then
    let section_pat := sscan data
    if section_pat.isEmpty then .error .couldNotFindSectionPattern
    else .ok (processSections lzma data section_pat)
  else .ok agesa

/-- `utils::try_find_agesa`. -/
def try_find_agesa (lzma : Bytes → Option Bytes) (data : Bytes) :
    Except AgesaErr (List String) :=
  tryFindAgesaGen findPatternSection lzma data

/-- A 16-byte buffer that is exactly a simple directory header declaring one
entry, with no entry bytes behind it. -/
def c1buf : Bytes :=
  [0x24, 0x50, 0x53, 0x50, 0, 0, 0, 0, 1, 0, 0, 0, 0, 0, 0, 0]

/-- An all-zero 256-byte leaf header with the given packed size. -/
def zeroLeafHdr (sz : Nat) : PspEntryHeader where
  rsvd_0 := List.replicate 16 0
  signature := List.replicate 4 0
  rsvd_14 := List.replicate 76 0
  version := { build := 0, micro := 0, minor := 0, major := 0 }
  rsvd_64 := List.replicate 8 0
  packed_size := sz
  rsvd_70 := List.replicate 144 0

/-- A simple directory with two leaf entries at locations 256 and 512 whose
headers have equal (zero) versions but packed sizes 5 and 3 respectively. -/
def c2buf : Bytes :=
  [0x24, 0x50, 0x53, 0x50] ++ [0, 0, 0, 0] ++ [2, 0, 0, 0] ++ [0, 0, 0, 0] ++
  [8, 0, 0, 0, 0, 0, 0, 0] ++ [0, 1, 0, 0, 0, 0, 0, 0] ++
  [8, 0, 0, 0, 0, 0, 0, 0] ++ [0, 2, 0, 0, 0, 0, 0, 0] ++
  List.replicate 208 0 ++
  (List.replicate 108 0 ++ [5, 0, 0, 0] ++ List.replicate 144 0) ++
  (List.replicate 108 0 ++ [3, 0, 0, 0] ++ List.replicate 144 0)

/-- A simple directory with two entries of leaf kinds 0x08 and 0x12 both
resolving to location 256. -/
def c3buf : Bytes :=
  [0x24, 0x50, 0x53, 0x50] ++ [0, 0, 0, 0] ++ [2, 0, 0, 0] ++ [0, 0, 0, 0] ++
  [8, 0, 0, 0, 0, 0, 0, 0] ++ [0, 1, 0, 0, 0, 0, 0, 0] ++
  [0x12, 0, 0, 0, 0, 0, 0, 0] ++ [0, 1, 0, 0, 0, 0, 0, 0] ++
  List.replicate 208 0 ++
  (List.replicate 108 0 ++ [7, 0, 0, 0] ++ List.replicate 144 0)

/-- Four bytes that are not a recognised directory signature. -/
def c7bufU : Bytes := [65, 66, 67, 68]

/-- A simple directory whose first entry is a nested-directory kind pointing
at an unrecognised signature and whose second entry is a valid leaf. -/
def c7buf : Bytes :=
  [0x24, 0x50, 0x53, 0x50] ++ [0, 0, 0, 0] ++ [2, 0, 0, 0] ++ [0, 0, 0, 0] ++
  [0x40, 0, 0, 0, 0, 0, 0, 0] ++ [64, 0, 0, 0, 0, 0, 0, 0] ++
  [8, 0, 0, 0, 0, 0, 0, 0] ++ [0, 1, 0, 0, 0, 0, 0, 0] ++
  List.replicate 16 0 ++ [90, 90, 90, 90] ++ List.replicate 188 0 ++
  (List.replicate 108 0 ++ [9, 0, 0, 0] ++ List.replicate 144 0)

/-- A header whose packed version is zero and whose legacy bytes are 9,8,7,6. -/
def c6hz : PspEntryHeader where
  rsvd_0 := [9, 8, 7, 6] ++ List.replicate 12 0
  signature := List.replicate 4 0
  rsvd_14 := List.replicate 76 0
  version := { build := 0, micro := 0, minor := 0, major := 0 }
  rsvd_64 := List.replicate 8 0
  packed_size := 0
  rsvd_70 := List.replicate 144 0

/-- A header whose packed version is the non-zero 4.3.2.1. -/
def c6hnz : PspEntryHeader where
  rsvd_0 := [9, 8, 7, 6] ++ List.replicate 12 0
  signature := List.replicate 4 0
  rsvd_14 := List.replicate 76 0
  version := { build := 1, micro := 2, minor := 3, major := 4 }
  rsvd_64 := List.replicate 8 0
  packed_size := 0
  rsvd_70 := List.replicate 144 0

/-- C1: the directory decoder generated by `make_dir!` is claimed to return a
`TruncatedData`-style error and never panic when the declared entry count
times the entry size exceeds the remaining bytes.  The code instead performs
the unchecked slice `data[HEADER_SIZE..][..entries * ENTRY_SIZE]`, which
panics on exactly those inputs: on a 16-byte buffer that is a valid header
declaring one 16-byte entry, `PspDirectory::new` panics, and the walk that
reaches it aborts with that panic rather than recording an error triple. -/
theorem makeDir_truncated_entries_panics :
    PspDirectory.new 0 c1buf = MayPanic.panicked ∧
    parseDirectory 1 c1buf 0 0 none = Except.error WalkErr.panicked := by
  constructor
  · rfl
  · rfl

/-- C4: `resolve_location` equals masking the raw location to its low 24 bits
(`% 2^24`) and adding the base offset; it is a total function, and on the
spec example it yields `0x00ABCDEF + 0x1000`. -/
theorem resolve_location_spec :
    (∀ location offset : Nat,
      resolve_location location offset = location % 16777216 + offset) ∧
    resolve_location 0x02ABCDEF 0x1000 = 0x00ABCDEF + 0x1000 := by
  constructor
  · intro location offset
    rw [resolve_location]
    rw [show (0x00FFFFFF : Nat) = 2 ^ 24 - 1 from rfl]
    rw [Nat.and_pow_two_sub_one_eq_mod]
  · rfl

/-- C5: the `Ord` implementation of `Version` is exactly the lexicographic
order on (major, minor, micro, build), and `Version(4,0,0,18)` compares
greater than `Version(3,0,0,99)`. -/
theorem version_ord_lex :
    (∀ a b : Version, a.cmp b = .lt ↔
      (a.major < b.major ∨ (a.major = b.major ∧
        (a.minor < b.minor ∨ (a.minor = b.minor ∧
          (a.micro < b.micro ∨ (a.micro = b.micro ∧ a.build < b.build))))))) ∧
    Version.cmp
      { build := 18, micro := 0, minor := 0, major := 4 }
      { build := 99, micro := 0, minor := 0, major := 3 } = .gt := by
  constructor
  · exact Version.cmp_eq_lt_iff
  · rfl

/-- C6: `get_version` returns the packed version field whenever it is
non-zero, and exactly when that field is all-zero it returns the version
built from the first four record bytes (byte 0 build, byte 1 micro,
byte 2 minor, byte 3 major). -/
theorem get_version_fallback (h : PspEntryHeader) :
    (h.version ≠ { build := 0, micro := 0, minor := 0, major := 0 } →
      h.get_version = h.version) ∧
    (h.version = { build := 0, micro := 0, minor := 0, major := 0 } →
      h.get_version =
        { build := h.rsvd_0.getD 0 0, micro := h.rsvd_0.getD 1 0
          minor := h.rsvd_0.getD 2 0, major := h.rsvd_0.getD 3 0 }) := by
  constructor
  · intro hne
    rw [PspEntryHeader.get_version]
    rw [if_neg]
    intro hz
    rw [Version.is_zero] at hz
    simp only [Bool.and_eq_true, beq_iff_eq] at hz
    apply hne
    cases hv : h.version
    rw [hv] at hz
    simp_all
  · intro hz
    rw [PspEntryHeader.get_version]
    rw [if_pos]
    rw [Version.is_zero, hz]
    rfl

/-- Witness for C6: a concrete all-zero-version header falls back to its
legacy bytes 9,8,7,6, and a concrete non-zero-version header keeps its packed
version. -/
theorem get_version_fallback_witness :
    c6hz.get_version = { build := 9, micro := 8, minor := 7, major := 6 } ∧
    c6hnz.get_version = { build := 1, micro := 2, minor := 3, major := 4 } := by
  constructor
  · exact (get_version_fallback c6hz).2 rfl
  · exact (get_version_fallback c6hnz).1 (by decide)

/-- C10: `PspEntryHeader::new` is total at its interface: it returns `Ok`
with the decoded record exactly when at least 256 bytes are available, and
the fetch-failure error whenever fewer are. -/
theorem psp_entry_header_new_total (d : Bytes) :
    (256 ≤ d.length →
      PspEntryHeader.new d = .ok (PspEntryHeader.parse (d.take 256))) ∧
    (d.length < 256 →
      PspEntryHeader.new d = .error .couldNotFetchPspEntryHeader) := by
  constructor
  · intro hlen
    rw [PspEntryHeader.new, sliceGetTo, if_pos hlen]
  · intro hlen
    rw [PspEntryHeader.new, sliceGetTo, if_neg (by omega)]

/-- Witness for C10: a 256-byte buffer decodes, the empty buffer errors. -/
theorem psp_entry_header_new_total_witness :
    PspEntryHeader.new (List.replicate 256 0) =
      .ok (PspEntryHeader.parse ((List.replicate 256 0).take 256)) ∧
    PspEntryHeader.new [] = .error .couldNotFetchPspEntryHeader := by
  constructor
  · exact (psp_entry_header_new_total (List.replicate 256 0)).1
      (by rw [List.length_replicate])
  · exact (psp_entry_header_new_total []).2 (by decide)

/-- C2 (amended): the reconciled output places successes before failures;
successes are ordered by version ascending with ties broken by packed size
ascending and then by location ascending; failures are ordered by location
ascending. -/
theorem parse_directories_presentation_order (fuel : Nat) (data : Bytes)
    (address offset : Nat) (out : List Triple)
    (h : parse_directories fuel data address offset = .ok out) :
    out.Pairwise amendedOrder := by
  unfold parse_directories at h
  cases hw : parseDirectory fuel data address offset none with
  | error e =>
    rw [hw] at h
    exact absurd h (by simp)
  | ok v =>
    rw [hw] at h
    simp only [Except.ok.injEq] at h
    rw [← h]
    exact reconcile_pairwise_amended v

set_option maxRecDepth 10000 in
/-- Witness for C2 (amended) at a concrete walk. -/
theorem parse_directories_presentation_order_witness :
    ([((512 : Nat), Except.ok (zeroLeafHdr 3), (none : Option Generation)),
      (256, Except.ok (zeroLeafHdr 5), none)] : List Triple).Pairwise
      amendedOrder := by
  exact parse_directories_presentation_order 2 c2buf 0 0 _ (by rfl)

set_option maxRecDepth 10000 in
/-- Counterexample to C2 as stated: a walk producing two leaves with equal
versions at locations 256 and 512 but packed sizes 5 and 3 reconciles to the
order 512 before 256 — the version tie is broken by packed size, not by
location. -/
theorem parse_directories_location_tiebreak_cex :
    parse_directories 2 c2buf 0 0 =
      .ok [(512, .ok (zeroLeafHdr 3), none), (256, .ok (zeroLeafHdr 5), none)] ∧
    (zeroLeafHdr 3).get_version = (zeroLeafHdr 5).get_version ∧
    ¬ ([((512 : Nat), Except.ok (zeroLeafHdr 3), (none : Option Generation)),
        (256, Except.ok (zeroLeafHdr 5), none)] : List Triple).Pairwise
        claimOrder := by
  refine ⟨by rfl, by rfl, ?_⟩
  intro hp
  have h1 := (List.pairwise_cons.mp hp).1 _
    (List.mem_cons_self (((256 : Nat), Except.ok (zeroLeafHdr 5),
      (none : Option Generation)) : Triple) [])
  simp only [claimOrder] at h1
  rcases h1 with h2 | ⟨h3, h4⟩
  · exact absurd h2 (by decide)
  · omega

/-- C3: after reconciliation all locations are pairwise distinct; the
location-sort is stable (filtering one location is unchanged by it); and for
every location the output retains exactly the first triple of the walk at
that location. -/
theorem parse_directories_dedup_by_location (fuel : Nat) (data : Bytes)
    (address offset : Nat) (l : List Triple)
    (h : parseDirectory fuel data address offset none = .ok l) :
    parse_directories fuel data address offset = .ok (reconcile l) ∧
    ((reconcile l).map (fun t : Triple => t.1)).Nodup ∧
    (∀ L : Nat, (stableSortBy cmpByLocation l).filter (fun t => t.1 == L) =
      l.filter (fun t => t.1 == L)) ∧
    (∀ L : Nat, (reconcile l).filter (fun t => t.1 == L) =
      (l.filter (fun t => t.1 == L)).take 1) := by
  refine ⟨?_, reconcile_nodup l, fun L => stableSortBy_loc_filter l L,
    fun L => reconcile_filter l L⟩
  unfold parse_directories
  rw [h]

set_option maxRecDepth 10000 in
/-- Witness for C3: a directory with two entries resolving to the same leaf
location 256 reconciles to distinct locations keeping the first triple. -/
theorem parse_directories_dedup_by_location_witness :
    parse_directories 2 c3buf 0 0 =
      .ok (reconcile
        [((256 : Nat), Except.ok (zeroLeafHdr 7), (none : Option Generation)),
         (256, Except.ok (zeroLeafHdr 7), none)]) ∧
    ((reconcile
        [((256 : Nat), Except.ok (zeroLeafHdr 7), (none : Option Generation)),
         (256, Except.ok (zeroLeafHdr 7), none)]).map
      (fun t : Triple => t.1)).Nodup ∧
    (reconcile
        [((256 : Nat), Except.ok (zeroLeafHdr 7), (none : Option Generation)),
         (256, Except.ok (zeroLeafHdr 7), none)]).filter
      (fun t => t.1 == 256) =
      (([((256 : Nat), Except.ok (zeroLeafHdr 7), (none : Option Generation)),
         (256, Except.ok (zeroLeafHdr 7), none)] : List Triple).filter
        (fun t => t.1 == 256)).take 1 := by
  obtain ⟨h1, h2, h3, h4⟩ :=
    parse_directories_dedup_by_location 2 c3buf 0 0
      [((256 : Nat), Except.ok (zeroLeafHdr 7), (none : Option Generation)),
       (256, Except.ok (zeroLeafHdr 7), none)] (by rfl)
  exact ⟨h1, h2, h4 256⟩

/-- C7: an unrecognised signature at a directory-dispatch point yields exactly
one triple carrying an unknown-signature error with the offending bytes; and
within a simple directory the results of one entry are concatenated with the
results of the remaining sibling entries, so such a failure does not
interrupt sibling traversal. -/
theorem unknown_signature_single_error :
    (∀ (fuel : Nat) (data : Bytes) (address offset : Nat)
        (gen : Option Generation) (sig : Bytes),
      sig4 data (resolve_location address offset) = some sig →
      ¬ (sig = sig2PSP ∨ sig = sig2BHD) →
      ¬ (sig = sigPSP ∨ sig = sigPL2) →
      parseDirectory (fuel + 1) data address offset gen =
        .ok [(resolve_location address offset,
          .error (.unknownSignature sig), gen)]) ∧
    (∀ (fuel : Nat) (data : Bytes) (address offset : Nat)
        (gen : Option Generation) (sig : Bytes) (dir : PspDirectory)
        (e : PspDirectoryEntry) (rest : List PspDirectoryEntry)
        (t r : List Triple),
      sig4 data (resolve_location address offset) = some sig →
      ¬ (sig = sig2PSP ∨ sig = sig2BHD) →
      (sig = sigPSP ∨ sig = sigPL2) →
      PspDirectory.new (resolve_location address offset) data = .val (.ok dir) →
      dir.entries = e :: rest →
      parsePspEntry fuel data e offset gen = .ok t →
      flatMapM (fun x => parsePspEntry fuel data x offset gen) rest = .ok r →
      parseDirectory (fuel + 1) data address offset gen = .ok (t ++ r)) := by
  constructor
  · intro fuel data address offset gen sig hsig hnc hns
    exact parseDirectory_unknown_sig fuel data address offset gen sig hsig hnc hns
  · intro fuel data address offset gen sig dir e rest t r hsig hnc hs hdir hent he hrest
    rw [parseDirectory_psp_case fuel data address offset gen sig dir hsig hnc hs hdir]
    rw [hent]
    simp only [flatMapM, he, hrest]

set_option maxRecDepth 10000 in
/-- Witness for C7: the root of `c7bufU` has signature ABCD and yields one
unknown-signature triple; in `c7buf` a nested entry hits signature ZZZZ and
its sibling leaf at 256 is still produced. -/
theorem unknown_signature_single_error_witness :
    parseDirectory 1 c7bufU 0 0 none =
      .ok [(0, .error (.unknownSignature [65, 66, 67, 68]), none)] ∧
    parseDirectory 2 c7buf 0 0 none =
      .ok [(64, .error (.unknownSignature [90, 90, 90, 90]), none),
           (256, .ok (zeroLeafHdr 9), none)] := by
  constructor
  · exact unknown_signature_single_error.1 0 c7bufU 0 0 none [65, 66, 67, 68]
      (by rfl) (by decide) (by decide)
  · exact unknown_signature_single_error.2 1 c7buf 0 0 none
      [0x24, 0x50, 0x53, 0x50]
      { address := 0,
        header := { signature := [0x24, 0x50, 0x53, 0x50],
                    checksum := [0, 0, 0, 0], entries := 2,
                    rsvd_0c := [0, 0, 0, 0] },
        entries := [{ kind := 0x40, sub_program := 0, rom_id := 0,
                      rsvd_03 := 0, size := 0, location := 64 },
                    { kind := 8, sub_program := 0, rom_id := 0,
                      rsvd_03 := 0, size := 0, location := 256 }] }
      { kind := 0x40, sub_program := 0, rom_id := 0,
        rsvd_03 := 0, size := 0, location := 64 }
      [{ kind := 8, sub_program := 0, rom_id := 0,
         rsvd_03 := 0, size := 0, location := 256 }]
      [(64, .error (.unknownSignature [90, 90, 90, 90]), none)]
      [(256, .ok (zeroLeafHdr 9), none)]
      (by rfl) (by decide) (Or.inl rfl) (by rfl) (by rfl) (by rfl) (by rfl)

/-- A 48-byte buffer that is exactly one encoded-volume section-pattern match
(outer GUID, 8 reserved bytes, size 48, reserved, inner GUID, reserved). -/
def c8sbuf : Bytes :=
  sectionGuid1 ++ List.replicate 8 0 ++ [48, 0, 0] ++ [0] ++ sectionGuid2 ++
    [0, 0, 0, 0]

/-- C8 (amended): with no plaintext match, `try_find_agesa` fails with an
error if the section pattern is also absent, and returns a non-error result
(possibly empty) only when at least one section-pattern match exists. -/
theorem try_find_agesa_error_policy (lzma : Bytes → Option Bytes) (data : Bytes)
    (h : findPatternAgesa data = []) :
    (findPatternSection data = [] →
      try_find_agesa lzma data = .error .couldNotFindSectionPattern) ∧
    (findPatternSection data ≠ [] →
      (try_find_agesa lzma data).isOk = true) := by
  unfold try_find_agesa tryFindAgesaGen
  rw [h]
  constructor
  · intro hs
    rw [hs]
    rfl
  · intro hs
    cases hsp : findPatternSection data with
    | nil => exact absurd hsp hs
    | cons p ps => rfl

/-- Witness for C8 (amended): the empty buffer errors; a buffer consisting of
one section-pattern match (whose body cannot be fetched) yields a non-error
result. -/
theorem try_find_agesa_error_policy_witness :
    try_find_agesa (fun _ => none) [] = .error .couldNotFindSectionPattern ∧
    (try_find_agesa (fun _ => none) c8sbuf).isOk = true := by
  constructor
  · exact (try_find_agesa_error_policy (fun _ => none) [] (by rfl)).1 (by rfl)
  · exact (try_find_agesa_error_policy (fun _ => none) c8sbuf (by rfl)).2
      (by decide)

/-- Counterexample to C8 as stated: on the empty buffer neither the plaintext
pattern nor any volume-derived identifier exists, yet `try_find_agesa`
returns an error, not a non-error empty result. -/
theorem try_find_agesa_no_pattern_errors_cex :
    try_find_agesa (fun _ => none) [] = .error .couldNotFindSectionPattern ∧
    try_find_agesa (fun _ => none) [] ≠ .ok [] := by
  have h1 : try_find_agesa (fun _ => none) [] =
      .error .couldNotFindSectionPattern := rfl
  exact ⟨h1, fun h2 => Except.noConfusion (h1.symm.trans h2)⟩

/-- C9: when the plaintext pattern matches at least once, the extractor
returns exactly the matched strings with NUL bytes rendered as spaces, and
the result is independent of both the section scanner and the decompressor:
the compressed-volume path is never entered. -/
theorem plaintext_agesa_short_circuit (data : Bytes) (m : Nat × Bytes)
    (ms : List (Nat × Bytes)) (h : findPatternAgesa data = m :: ms) :
    (∀ sscan lzma, tryFindAgesaGen sscan lzma data =
      .ok ((m :: ms).map (fun p => renderAgesa p.2))) ∧
    (∀ lzma, try_find_agesa lzma data =
      .ok ((m :: ms).map (fun p => renderAgesa p.2))) := by
  have key : ∀ sscan lzma, tryFindAgesaGen sscan lzma data =
      .ok ((m :: ms).map (fun p => renderAgesa p.2)) := by
    intro sscan lzma
    unfold tryFindAgesaGen
    rw [h]
    rfl
  exact ⟨key, fun lzma => key findPatternSection lzma⟩

/-- Witness for C9: the buffer holding the bytes of AGESA!V9 1.2.3 extracts
exactly that string, with an arbitrary failing decompressor in place. -/
theorem plaintext_agesa_short_circuit_witness :
    try_find_agesa (fun _ => none)
      [65, 71, 69, 83, 65, 33, 86, 57, 32, 49, 46, 50, 46, 51] =
      .ok ["AGESA!V9 1.2.3"] := by
  have h := (plaintext_agesa_short_circuit
    [65, 71, 69, 83, 65, 33, 86, 57, 32, 49, 46, 50, 46, 51]
    (0, [65, 71, 69, 83, 65, 33, 86, 57, 32, 49, 46, 50, 46, 51]) []
    (by rfl)).2 (fun _ => none)
  exact h.trans (by decide)
